import Mathlib

/-!
Shallow embedding of the `deadletterqueue` Go package
(`dead_letter.go`, with the two earlier variants kept for comparison),
together with theorems checking the design document's claims about it.

The external Redis store is modelled as an association list from keys to
stored values.  Serialization is kept symbolic: the JSON marshalling of a
message list `l` is the store value `RVal.msgs l` (which unmarshals back
to `l`), while `RVal.str s` stands for raw bytes that are not the JSON
marshalling of a message list (response bodies, and garbage).  The HTTP
transport (`http.DefaultClient.Do`) is a parameter returning either a
response or a transport error.  Store I/O errors are external failures
and are not produced by the in-model store.
-/

set_option maxHeartbeats 1000000

namespace DeadLetterQueue

/-- InputMsg (dead_letter.go 28-34): one queued HTTP request.  The Go
`map[string]interface{}` post-parameter and header maps are modelled as
association lists of rendered key/value strings. -/
structure InputMsg where
  Name : String
  Url : String
  ReqMethod : String
  PostParam : List (String × String)
  Headers : List (String × String)
deriving DecidableEq

/-- A value stored under a Redis key: either the symbolic JSON marshalling
of a message list (written by SetQueue) or a raw string that is not a
marshalled message list (written for response records and success keys). -/
inductive RVal where
  | str (s : String)
  | msgs (l : List InputMsg)
deriving DecidableEq

/-- The Redis key space, as an association list from key to value. -/
abbrev Store := List (String × RVal)

/-- Redis GET: the value stored at key `k`, if the key is present. -/
def storeGet : Store → String → Option RVal
  | [], _ => none
  | p :: rest, k => if p.1 = k then some p.2 else storeGet rest k

/-- Redis DEL: drop key `k`. -/
def storeDel : Store → String → Store
  | [], _ => []
  | p :: rest, k => if p.1 = k then storeDel rest k else p :: storeDel rest k

/-- Redis SET: store `v` at key `k`, overwriting any previous value. -/
def storeSet (st : Store) (k : String) (v : RVal) : Store :=
  (k, v) :: storeDel st k

/-- GetQueue (dead_letter.go 257-269): GET the key and `json.Unmarshal`
the value into a message slice.  A missing key yields the empty string,
whose unmarshal fails; a stored value that is not a marshalled message
list also fails to unmarshal; in both cases the error is discarded and
the nil slice is returned. -/
def GetQueue (st : Store) (qname : String) : List InputMsg :=
  match storeGet st qname with
  | some (RVal.msgs l) => l
  | some (RVal.str _) => []
  | none => []

/-- SetQueue (dead_letter.go 271-283): marshal the message list and SET
it at the key.  Marshalling of these values cannot fail and store I/O
errors are external, so the model returns the updated store. -/
def SetQueue (st : Store) (queName : String) (msg : List InputMsg) : Store :=
  storeSet st queName (RVal.msgs msg)

/-- AddMessage (dead_letter.go 82-87): read the request queue, append the
new message, and write the queue back. -/
def AddMessage (queueName : String) (st : Store) (message : InputMsg) : Store :=
  SetQueue st queueName (GetQueue st queueName ++ [message])

/-- Find (dead_letter.go 290-299): linear search of the dead-HTTP slice
for the given status code. -/
def Find (httpSlice : List Int) (http : Int) : Bool :=
  match httpSlice with
  | [] => false
  | item :: rest => if item == http then true else Find rest http

/-- RemoveIndex (dead_letter.go 286-288): `append(s[:index], s[index+1:]...)`.
Go panics when `index+1` exceeds the slice length; the only caller uses
index 0 and the model checks non-emptiness at that call site. -/
def RemoveIndex (s : List InputMsg) (index : Nat) : List InputMsg :=
  s.take index ++ s.drop (index + 1)

/-- The parts of `http.Response` the engine reads. -/
structure HttpResponse where
  statusCode : Int
  status : String
  body : String
deriving DecidableEq

/-- The HTTP capability (`http.DefaultClient.Do`): a response, or a
transport error described by a string. -/
def Transport := InputMsg → Except String HttpResponse

/-- MessageResponse (dead_letter.go 169-174): SET the response body under
the message name. -/
def MessageResponse (st : Store) (msgName : String) (response : String) : Store :=
  storeSet st msgName (RVal.str response)

/-- Outcome of running engine code that can crash the process: `ok`
carries the store after a normal return, `abort` the store at the moment
of a runtime panic or `log.Fatalf`. -/
inductive ExecResult where
  | ok (st : Store)
  | abort (st : Store) (reason : String)
deriving DecidableEq

/-- Tail of HandleDeadQueue (dead_letter.go 190-195): fetch the source
queue and write back `RemoveIndex(queue, 0)`.  When the fetched queue is
empty, `s[1:]` inside RemoveIndex panics in Go. -/
def deadRemoveHead (st : Store) (qName : String) : ExecResult :=
  match GetQueue st qName with
  | [] => ExecResult.abort st "panic: slice bounds out of range in RemoveIndex"
  | x :: restq => ExecResult.ok (SetQueue st qName (RemoveIndex (x :: restq) 0))

/-- HandleDeadQueue (dead_letter.go 177-196): when the status code is in
deadHTTP, append the message to the queue keyed by the stringified status
code; then remove the head of the source queue with `RemoveIndex(_, 0)`. -/
def HandleDeadQueue (deadHTTP : List Int) (st : Store) (res : HttpResponse)
    (msgParam : InputMsg) (qName : String) : ExecResult :=
  deadRemoveHead
    (if Find deadHTTP res.statusCode then
      SetQueue st (toString res.statusCode)
        (GetQueue st (toString res.statusCode) ++ [msgParam])
     else st)
    qName

/-- Successful-send tail of RawExecute (dead_letter.go 150-165): the body
becomes the response record under the message name, HandleDeadQueue
routes and removes, and the body is stored again under the `url+method`
success key. -/
def rawExecuteOk (deadHTTP : List Int) (st : Store) (res : HttpResponse)
    (msgParam : InputMsg) (qName : String) : ExecResult :=
  match HandleDeadQueue deadHTTP (MessageResponse st msgParam.Name res.body)
      res msgParam qName with
  | ExecResult.abort st2 r => ExecResult.abort st2 r
  | ExecResult.ok st2 =>
      ExecResult.ok (storeSet st2 (msgParam.Url ++ msgParam.ReqMethod) (RVal.str res.body))

/-- RawExecute (dead_letter.go 117-166): send the request.  On a
transport error the code logs it but then dereferences the nil response
(`res.Body`), panicking the process with the store unchanged. -/
def RawExecute (deadHTTP : List Int) (transport : Transport) (st : Store)
    (msgParam : InputMsg) (qName : String) : ExecResult :=
  match transport msgParam with
  | Except.error e =>
      ExecResult.abort st ("panic: nil response dereference after transport error: " ++ e)
  | Except.ok res => rawExecuteOk deadHTTP st res msgParam qName

/-- Loop of ExecuteQueueName (dead_letter.go 108-110): RawExecute each
snapshot message in order; a process abort stops the pass. -/
def execList (deadHTTP : List Int) (transport : Transport) (st : Store)
    (msgs : List InputMsg) (qName : String) : ExecResult :=
  match msgs with
  | [] => ExecResult.ok st
  | m :: rest =>
      match RawExecute deadHTTP transport st m qName with
      | ExecResult.abort st' r => ExecResult.abort st' r
      | ExecResult.ok st' => execList deadHTTP transport st' rest qName

/-- ExecuteQueueName (dead_letter.go 104-114): snapshot the queue, then
execute each snapshot message; an empty snapshot only logs. -/
def ExecuteQueueName (deadHTTP : List Int) (transport : Transport) (st : Store)
    (qName : String) : ExecResult :=
  execList deadHTTP transport st (GetQueue st qName) qName

/-- ExecuteQueue (dead_letter.go 90-93): execute the request queue. -/
def ExecuteQueue (queueName : String) (deadHTTP : List Int) (transport : Transport)
    (st : Store) : ExecResult :=
  ExecuteQueueName deadHTTP transport st queueName

/-- Errors the Redis client hands back from GET: `redis.Nil` for an
absent key, or an I/O error (never produced by the in-model store). -/
inductive RedisErr where
  | redisNil
  | ioErr (msg : String)
deriving DecidableEq

/-- MessageStatus (dead_letter.go 199-202): GET the response record and
pass value and error straight through; GET of an absent key returns the
`redis.Nil` error.  The stored value is returned symbolically. -/
def MessageStatus (st : Store) (msgName : String) : Except RedisErr RVal :=
  match storeGet st msgName with
  | none => Except.error RedisErr.redisNil
  | some v => Except.ok v

/-- DelMsg (dead_letter.go 222-230): keep every entry whose Name differs
from msgName and write the filtered queue back; the only error sources
are external store failures, so the model always succeeds. -/
def DelMsg (st : Store) (queName : String) (msgName : String) : Except RedisErr Store :=
  Except.ok (SetQueue st queName ((GetQueue st queName).filter (fun v => v.Name != msgName)))

/-- DeleteReqMsg (dead_letter.go 205-207). -/
def DeleteReqMsg (queueName : String) (st : Store) (msgName : String) : Except RedisErr Store :=
  DelMsg st queueName msgName

/-- DeleteDeadMsg (dead_letter.go 210-219): DelMsg on every stringified
dead-HTTP key, stopping at the first error. -/
def DeleteDeadMsg (deadHTTP : List Int) (st : Store) (msgName : String) : Except RedisErr Store :=
  match deadHTTP with
  | [] => Except.ok st
  | v :: rest =>
      match DelMsg st (toString v) msgName with
      | Except.error e => Except.error e
      | Except.ok st' => DeleteDeadMsg rest st' msgName

/-- ClearQueue (dead_letter.go 249-255): DEL the key. -/
def ClearQueue (st : Store) (qName : String) : Except RedisErr Store :=
  Except.ok (storeDel st qName)

namespace V1

/-- Find from the oldest variant (src/unnamed/part_001 170-177): the Go
loop `for item := range slice` ranges over the indices of the slice, so
the comparison is between each index and `val`, not between the stored
status codes and `val`. -/
def Find (slice : List Int) (val : Int) : Bool :=
  ((List.range slice.length).map (fun i => (i : Int))).any (fun item => item == val)

end V1

/- ### Concrete fixtures used by witnesses and counterexamples -/

/-- A plain GET message (the spec's scenario message A). -/
def msgA : InputMsg :=
  { Name := "A", Url := "http://x/ok", ReqMethod := "GET",
    PostParam := [], Headers := [] }

/-- The spec's scenario message B, a POST that will receive status 500. -/
def msgB : InputMsg :=
  { Name := "B", Url := "http://x/fail", ReqMethod := "POST",
    PostParam := [("q", "1")], Headers := [] }

/-- A request queue holding only message A. -/
def stOneA : Store := SetQueue [] "ReqQueue" [msgA]

/-- A request queue holding only message B. -/
def stOneB : Store := SetQueue [] "ReqQueue" [msgB]

/-- The dead-letter queue "500" holding message B, as at the start of a
dead-queue retry pass. -/
def st500 : Store := SetQueue [] "500" [msgB]

/-- A transport whose every send succeeds with status 200. -/
def t200 : Transport := fun _ => Except.ok ⟨200, "200 OK", "done"⟩

/-- A transport whose every send succeeds with status 500. -/
def t500 : Transport := fun _ => Except.ok ⟨500, "500 Internal Server Error", "err"⟩

/-- A transport whose every send fails with a transport error. -/
def tErr : Transport := fun _ => Except.error "connection refused"

/-- The store produced by retrying queue "500" under `t500`: the head was
removed but one copy of B was re-filed into the same queue, so queue
"500" still holds B. -/
def stFinal500 : Store :=
  [("http://x/failPOST", RVal.str "err"), ("500", RVal.msgs [msgB]), ("B", RVal.str "err")]

/- ### Basic store lemmas -/

theorem storeGet_storeDel_ne (st : Store) (k k' : String) (h : k' ≠ k) :
    storeGet (storeDel st k) k' = storeGet st k' := by
  induction st with
  | nil => simp [storeDel]
  | cons a t ih =>
    by_cases hak : a.1 = k
    · have hak' : a.1 ≠ k' := by rw [hak]; exact fun e => h e.symm
      have hkk : k ≠ k' := fun e => h e.symm
      simp [storeDel, storeGet, hak, hak', hkk, ih]
    · simp only [storeDel, if_neg hak, storeGet]
      by_cases hk' : a.1 = k'
      · simp [hk']
      · simp [hk', ih]

theorem storeGet_storeSet_self (st : Store) (k : String) (v : RVal) :
    storeGet (storeSet st k v) k = some v := by
  simp [storeGet, storeSet]

theorem storeGet_storeSet_ne (st : Store) (k k' : String) (v : RVal) (h : k' ≠ k) :
    storeGet (storeSet st k v) k' = storeGet st k' := by
  have hk : k ≠ k' := fun e => h e.symm
  simp [storeGet, storeSet, hk, storeGet_storeDel_ne st k k' h]

theorem GetQueue_SetQueue_self (st : Store) (q : String) (l : List InputMsg) :
    GetQueue (SetQueue st q l) q = l := by
  simp [GetQueue, SetQueue, storeGet_storeSet_self]

theorem GetQueue_SetQueue_ne (st : Store) (q q' : String) (l : List InputMsg)
    (h : q' ≠ q) : GetQueue (SetQueue st q l) q' = GetQueue st q' := by
  simp [GetQueue, SetQueue, storeGet_storeSet_ne st q q' _ h]

theorem GetQueue_storeSet_ne (st : Store) (k q : String) (v : RVal)
    (h : q ≠ k) : GetQueue (storeSet st k v) q = GetQueue st q := by
  simp [GetQueue, storeGet_storeSet_ne st k q v h]

theorem Find_iff_mem (httpSlice : List Int) (http : Int) :
    Find httpSlice http = true ↔ http ∈ httpSlice := by
  induction httpSlice with
  | nil => simp [Find]
  | cons item rest ih =>
    by_cases h : item = http
    · simp [Find, h]
    · have hb : (item == http) = false := by simp [h]
      simp [Find, hb, ih, List.mem_cons]
      exact fun e => (h e.symm).elim

theorem deadRemoveHead_cons (st : Store) (qName : String) (x : InputMsg)
    (l : List InputMsg) (h : GetQueue st qName = x :: l) :
    deadRemoveHead st qName = ExecResult.ok (SetQueue st qName l) := by
  simp only [deadRemoveHead, h, RemoveIndex, List.take_zero, List.drop_succ_cons,
    List.drop_zero, List.nil_append]

/-- One engine step under a successful send, when neither the response
record key, the success key, nor the dead-letter key collides with the
source queue key: the head is removed from the source queue, and when the
status is dead (and its key collides with no other written key) the
message is appended to the tail of that dead-letter queue. -/
theorem rawExecute_step (deadHTTP : List Int) (transport : Transport) (st : Store)
    (m : InputMsg) (q : String) (r : HttpResponse) (rest : List InputMsg)
    (hr : transport m = Except.ok r)
    (hq : GetQueue st q = m :: rest)
    (hname : m.Name ≠ q)
    (hsucc : m.Url ++ m.ReqMethod ≠ q)
    (hkey : Find deadHTTP r.statusCode = true → toString r.statusCode ≠ q) :
    ∃ st', RawExecute deadHTTP transport st m q = ExecResult.ok st' ∧
      GetQueue st' q = rest ∧
      (Find deadHTTP r.statusCode = true →
        toString r.statusCode ≠ m.Name →
        toString r.statusCode ≠ m.Url ++ m.ReqMethod →
        GetQueue st' (toString r.statusCode) =
          GetQueue st (toString r.statusCode) ++ [m]) := by
  have hraw : RawExecute deadHTTP transport st m q = rawExecuteOk deadHTTP st r m q := by
    simp only [RawExecute, hr]
  have hq1 : GetQueue (MessageResponse st m.Name r.body) q = m :: rest := by
    rw [MessageResponse, GetQueue_storeSet_ne _ _ _ _ (Ne.symm hname), hq]
  by_cases hF : Find deadHTTP r.statusCode = true
  · have hkq : toString r.statusCode ≠ q := hkey hF
    have hq2 : GetQueue
        (SetQueue (MessageResponse st m.Name r.body) (toString r.statusCode)
          (GetQueue (MessageResponse st m.Name r.body) (toString r.statusCode) ++ [m])) q =
        m :: rest := by
      rw [GetQueue_SetQueue_ne _ _ _ _ (Ne.symm hkq), hq1]
    have hhandle : HandleDeadQueue deadHTTP (MessageResponse st m.Name r.body) r m q =
        ExecResult.ok (SetQueue
          (SetQueue (MessageResponse st m.Name r.body) (toString r.statusCode)
            (GetQueue (MessageResponse st m.Name r.body) (toString r.statusCode) ++ [m]))
          q rest) := by
      rw [HandleDeadQueue, if_pos hF, deadRemoveHead_cons _ _ _ _ hq2]
    refine ⟨storeSet (SetQueue
        (SetQueue (MessageResponse st m.Name r.body) (toString r.statusCode)
          (GetQueue (MessageResponse st m.Name r.body) (toString r.statusCode) ++ [m]))
        q rest) (m.Url ++ m.ReqMethod) (RVal.str r.body), ?_, ?_, ?_⟩
    · rw [hraw]; simp only [rawExecuteOk, hhandle]
    · rw [GetQueue_storeSet_ne _ _ _ _ (Ne.symm hsucc), GetQueue_SetQueue_self]
    · intro _ hkn hks
      rw [GetQueue_storeSet_ne _ _ _ _ hks, GetQueue_SetQueue_ne _ _ _ _ hkq,
        GetQueue_SetQueue_self]
      simp only [MessageResponse]
      rw [GetQueue_storeSet_ne _ _ _ _ hkn]
  · have hhandle : HandleDeadQueue deadHTTP (MessageResponse st m.Name r.body) r m q =
        ExecResult.ok (SetQueue (MessageResponse st m.Name r.body) q rest) := by
      rw [HandleDeadQueue, if_neg hF, deadRemoveHead_cons _ _ _ _ hq1]
    refine ⟨storeSet (SetQueue (MessageResponse st m.Name r.body) q rest)
        (m.Url ++ m.ReqMethod) (RVal.str r.body), ?_, ?_, ?_⟩
    · rw [hraw]; simp only [rawExecuteOk, hhandle]
    · rw [GetQueue_storeSet_ne _ _ _ _ (Ne.symm hsucc), GetQueue_SetQueue_self]
    · intro hF' _ _
      exact absurd hF' hF

theorem execList_cons_ok (deadHTTP : List Int) (transport : Transport) (st st' : Store)
    (m : InputMsg) (rest : List InputMsg) (q : String)
    (h : RawExecute deadHTTP transport st m q = ExecResult.ok st') :
    execList deadHTTP transport st (m :: rest) q = execList deadHTTP transport st' rest q := by
  simp only [execList, h]

/-- A pass over a snapshot drains the source queue when every send
succeeds and no written key (response record, success key, dead-letter
key) collides with the source queue key. -/
theorem execList_drains (deadHTTP : List Int) (transport : Transport) (q : String) :
    ∀ (msgs : List InputMsg) (st : Store),
      GetQueue st q = msgs →
      (∀ m ∈ msgs, ∃ r, transport m = Except.ok r ∧
        m.Name ≠ q ∧ m.Url ++ m.ReqMethod ≠ q ∧
        (Find deadHTTP r.statusCode = true → toString r.statusCode ≠ q)) →
      ∃ st', execList deadHTTP transport st msgs q = ExecResult.ok st' ∧
        GetQueue st' q = [] := by
  intro msgs
  induction msgs with
  | nil => exact fun st hq _ => ⟨st, rfl, hq⟩
  | cons m rest ih =>
    intro st hq hall
    obtain ⟨r, hr, hname, hsucc, hkey⟩ := hall m (List.mem_cons_self m rest)
    obtain ⟨st1, hexec, hq1, -⟩ :=
      rawExecute_step deadHTTP transport st m q r rest hr hq hname hsucc hkey
    obtain ⟨st', hrun, hq'⟩ := ih st1 hq1 (fun x hx => hall x (List.mem_cons_of_mem m hx))
    exact ⟨st', by rw [execList_cons_ok deadHTTP transport st st1 m rest q hexec, hrun], hq'⟩

theorem getQueue_foldl_addMessage (q : String) (msgs : List InputMsg) :
    ∀ st : Store, GetQueue (msgs.foldl (AddMessage q) st) q = GetQueue st q ++ msgs := by
  induction msgs with
  | nil => intro st; simp
  | cons m rest ih =>
    intro st
    rw [List.foldl_cons, ih (AddMessage q st m)]
    simp [AddMessage, GetQueue_SetQueue_self]

/- ### Claims -/

/-- C1: Routing correctness — for every configured dead-code list D and
every status code s, `Find D s` holds iff s is an element of D, so the
routing decision (Find followed by strconv.Itoa) selects the dead-letter
key `toString s` exactly when s ∈ D and no key otherwise; the decision is
a pure function of s and D. -/
theorem routing_correct (D : List Int) (s : Int) :
    (Find D s = true ↔ s ∈ D) ∧
      (if Find D s then some (toString s) else none) =
        (if s ∈ D then some (toString s) else none) := by
  refine ⟨Find_iff_mem D s, ?_⟩
  by_cases h : s ∈ D
  · rw [if_pos ((Find_iff_mem D s).mpr h), if_pos h]
  · rw [if_neg (fun hf => h ((Find_iff_mem D s).mp hf)), if_neg h]

/-- Context for the routing claim: the superseded part_001 variant of
Find ranges over slice indices instead of elements, so it rejects 500
even though 500 is in the default dead list, and accepts 3 for that list
even though 3 is not in it.  The current Find (dead_letter.go and
part_000, identical) is the authoritative router. -/
theorem v1_find_ignores_elements :
    V1.Find [400, 403, 429, 500, 502, 503, 504] 500 = false ∧
      V1.Find [400, 403, 429, 500, 502, 503, 504] 3 = true ∧
      (3 : Int) ∉ [400, 403, 429, 500, 502, 503, 504] := by decide

/-- C2 counterexample: a dead-queue retry pass whose message again maps
to the same dead-letter queue.  Queue "500" starts with the single
message B (snapshot length 1); the pass completes normally, yet the queue
still has length 1 — it did not decrease by the snapshot length, because
HandleDeadQueue re-filed B into the source queue before removing the
head, with no concurrent external appends involved. -/
theorem executeQueue_refile_counterexample :
    ExecuteQueueName [500] t500 st500 "500" = ExecResult.ok stFinal500 ∧
      (GetQueue st500 "500").length = 1 ∧
      (GetQueue stFinal500 "500").length = 1 ∧
      ¬ ((GetQueue st500 "500").length - (GetQueue stFinal500 "500").length = 1) := by
  refine ⟨?_, rfl, rfl, by decide⟩
  rfl

/-- C2 amended: when every send in the pass succeeds and no key written
during the pass collides with the source queue key — no message is
re-filed into the source queue itself, and no message Name or url+method
success key equals the source queue key — a pass over a snapshot of
length N completes and leaves the source queue empty, i.e. its length has
decreased by exactly N; each processed message's head removal happens
exactly once, inside its HandleDeadQueue call. -/
theorem executeQueueName_drains (deadHTTP : List Int) (transport : Transport)
    (st : Store) (q : String) (msgs : List InputMsg)
    (hq : GetQueue st q = msgs)
    (hall : ∀ m ∈ msgs, ∃ r, transport m = Except.ok r ∧
      m.Name ≠ q ∧ m.Url ++ m.ReqMethod ≠ q ∧
      (Find deadHTTP r.statusCode = true → toString r.statusCode ≠ q)) :
    ∃ st', ExecuteQueueName deadHTTP transport st q = ExecResult.ok st' ∧
      GetQueue st' q = [] ∧
      (GetQueue st q).length - (GetQueue st' q).length = msgs.length := by
  obtain ⟨st', hrun, hempty⟩ := execList_drains deadHTTP transport q msgs st hq hall
  refine ⟨st', ?_, hempty, ?_⟩
  · rw [ExecuteQueueName, hq, hrun]
  · rw [hq, hempty]
    simp

theorem executeQueueName_drains_witness :
    ∃ st', ExecuteQueueName [500] t200 stOneA "ReqQueue" = ExecResult.ok st' ∧
      GetQueue st' "ReqQueue" = [] ∧
      (GetQueue stOneA "ReqQueue").length - (GetQueue st' "ReqQueue").length =
        [msgA].length :=
  executeQueueName_drains [500] t200 stOneA "ReqQueue" [msgA] (by decide)
    (by
      intro m hm
      rw [List.mem_singleton] at hm
      subst hm
      exact ⟨⟨200, "200 OK", "done"⟩, rfl, by decide, by decide, by decide⟩)

/-- C3: the code does not isolate transport errors.  With queue ["A"] and
a transport that fails, the engine logs the error but then dereferences
the nil response, panicking the process: the pass aborts with the store
unchanged — the message is still queued (not removed), no response record
was written, and nothing was filed into any dead-letter queue; the
remaining messages are never attempted. -/
theorem transport_error_aborts :
    ExecuteQueueName [500] tErr stOneA "ReqQueue" =
      ExecResult.abort stOneA
        "panic: nil response dereference after transport error: connection refused" ∧
      GetQueue stOneA "ReqQueue" = [msgA] ∧
      storeGet stOneA "A" = none := by
  refine ⟨?_, rfl, rfl⟩
  rfl

/-- C4: Dead-letter filing — when the send of the queue head m returns a
status code in the dead set (and the dead-letter key, message name and
success key do not collide with each other or the source queue key),
exactly one copy of m, with all fields unchanged, is appended to the tail
of the dead-letter queue keyed by the stringified status code, and m is
removed from the source queue. -/
theorem deadletter_filing (deadHTTP : List Int) (transport : Transport) (st : Store)
    (m : InputMsg) (q : String) (r : HttpResponse) (rest : List InputMsg)
    (hr : transport m = Except.ok r)
    (hdead : r.statusCode ∈ deadHTTP)
    (hq : GetQueue st q = m :: rest)
    (hname : m.Name ≠ q)
    (hsucc : m.Url ++ m.ReqMethod ≠ q)
    (hkq : toString r.statusCode ≠ q)
    (hkname : toString r.statusCode ≠ m.Name)
    (hksucc : toString r.statusCode ≠ m.Url ++ m.ReqMethod) :
    ∃ st', RawExecute deadHTTP transport st m q = ExecResult.ok st' ∧
      GetQueue st' (toString r.statusCode) =
        GetQueue st (toString r.statusCode) ++ [m] ∧
      GetQueue st' q = rest := by
  obtain ⟨st', hexec, hq', hdq⟩ :=
    rawExecute_step deadHTTP transport st m q r rest hr hq hname hsucc (fun _ => hkq)
  exact ⟨st', hexec,
    hdq ((Find_iff_mem deadHTTP r.statusCode).mpr hdead) hkname hksucc, hq'⟩

/-- Witness instantiating C4 at the spec's scenario: request queue
["B"], dead set {500}, transport returning 500; after the step the
request queue is empty and queue "500" holds exactly the original B. -/
theorem deadletter_filing_witness :
    ∃ st', RawExecute [500] t500 stOneB msgB "ReqQueue" = ExecResult.ok st' ∧
      GetQueue st' (toString (500 : Int)) =
        GetQueue stOneB (toString (500 : Int)) ++ [msgB] ∧
      GetQueue st' "ReqQueue" = [] :=
  deadletter_filing [500] t500 stOneB msgB "ReqQueue"
    ⟨500, "500 Internal Server Error", "err"⟩ [] rfl (by decide) (by decide)
    (by decide) (by decide) (by decide) (by decide) (by decide)

/-- C5: FIFO preservation — starting from an empty request queue, after
AddMessage calls for m1..mn in order, GetQueue returns exactly m1..mn in
insertion order. -/
theorem fifo_preservation (q : String) (st : Store) (msgs : List InputMsg)
    (hempty : GetQueue st q = []) :
    GetQueue (msgs.foldl (AddMessage q) st) q = msgs := by
  rw [getQueue_foldl_addMessage q msgs st, hempty, List.nil_append]

theorem fifo_preservation_witness :
    GetQueue ([] : Store) "ReqQueue" = [] ∧
      GetQueue ([msgA, msgB].foldl (AddMessage "ReqQueue") ([] : Store)) "ReqQueue" =
        [msgA, msgB] :=
  ⟨rfl, fifo_preservation "ReqQueue" [] [msgA, msgB] rfl⟩

/-- C7: Deletion precision — DelMsg removes exactly the entries whose
Name equals msgName: the queue afterwards is the original filtered to the
entries with a different Name, an order-preserving sublist in which no
entry bears the deleted name (entries sharing a Url but not the Name
survive, being kept by the filter). -/
theorem delMsg_precise (st : Store) (q n : String) :
    ∃ st', DelMsg st q n = Except.ok st' ∧
      GetQueue st' q = (GetQueue st q).filter (fun v => v.Name != n) ∧
      (GetQueue st' q).Sublist (GetQueue st q) ∧
      ∀ m ∈ GetQueue st' q, m.Name ≠ n := by
  refine ⟨SetQueue st q ((GetQueue st q).filter (fun v => v.Name != n)), rfl,
    GetQueue_SetQueue_self _ _ _, ?_, ?_⟩
  · rw [GetQueue_SetQueue_self]
    exact List.filter_sublist _
  · intro m hm
    rw [GetQueue_SetQueue_self] at hm
    have := List.of_mem_filter hm
    simpa using this

/-- C8 counterexample: deleting a name absent from the addressed queue is
not reported as a not-found condition — DelMsg returns the plain success
value (the very same `.ok` a successful removal returns), leaving the
queue untouched; nothing distinguishable from success reaches the
caller. -/
theorem delMsg_absent_reports_success :
    DelMsg stOneA "ReqQueue" "B" = Except.ok stOneA ∧
      (∀ m ∈ GetQueue stOneA "ReqQueue", m.Name ≠ "B") := by
  refine ⟨?_, by decide⟩
  rfl

/-- C8 amended: reading a response record that was never written does
report an explicit not-found — MessageStatus returns the `redis.Nil`
error, distinguishable both from success and from I/O store errors; but
deleting an absent name silently succeeds as an idempotent no-op, with no
not-found indication. -/
theorem notfound_reporting (st : Store) (name q n : String)
    (hrec : storeGet st name = none)
    (habs : ∀ m ∈ GetQueue st q, m.Name ≠ n) :
    MessageStatus st name = Except.error RedisErr.redisNil ∧
      (∀ v : RVal, (Except.error RedisErr.redisNil : Except RedisErr RVal) ≠ Except.ok v) ∧
      (∀ s, RedisErr.redisNil ≠ RedisErr.ioErr s) ∧
      (∃ st', DelMsg st q n = Except.ok st' ∧ GetQueue st' q = GetQueue st q) := by
  refine ⟨?_, ?_, ?_, ?_⟩
  · rw [MessageStatus, hrec]
  · intro v h
    exact Except.noConfusion h
  · intro s h
    exact RedisErr.noConfusion h
  · refine ⟨SetQueue st q ((GetQueue st q).filter (fun v => v.Name != n)), rfl, ?_⟩
    rw [GetQueue_SetQueue_self]
    apply List.filter_eq_self.mpr
    intro a ha
    simpa using habs a ha

theorem notfound_reporting_witness :
    MessageStatus stOneA "never-written" = Except.error RedisErr.redisNil ∧
      (∃ st', DelMsg stOneA "ReqQueue" "B" = Except.ok st' ∧
        GetQueue st' "ReqQueue" = GetQueue stOneA "ReqQueue") :=
  ⟨(notfound_reporting stOneA "never-written" "ReqQueue" "B" (by decide) (by decide)).1,
   (notfound_reporting stOneA "never-written" "ReqQueue" "B" (by decide) (by decide)).2.2.2⟩

/-- C9: No name-uniqueness enforcement — AddMessage unconditionally
appends to the tail of the queue whatever the existing entries; two adds,
in particular two adds of messages sharing a Name, leave two entries
queued in insertion order, with nothing rejected or deduplicated. -/
theorem addMessage_no_dedup (q : String) (st : Store) (m1 m2 : InputMsg) :
    GetQueue (AddMessage q st m1) q = GetQueue st q ++ [m1] ∧
      GetQueue (AddMessage q (AddMessage q st m1) m2) q = GetQueue st q ++ [m1, m2] := by
  constructor
  · rw [AddMessage, GetQueue_SetQueue_self]
  · rw [AddMessage, GetQueue_SetQueue_self, AddMessage, GetQueue_SetQueue_self,
      List.append_assoc]
    rfl

/-- C10: Silent-empty queue read — GetQueue surfaces no error to its
caller: when the key is absent, and when the stored value is not the JSON
marshalling of a message list, the unmarshal error is discarded and the
nil message list is returned, indistinguishable from an empty queue. -/
theorem getQueue_silent_empty (st : Store) (q : String) :
    (storeGet st q = none → GetQueue st q = []) ∧
      (∀ s, storeGet st q = some (RVal.str s) → GetQueue st q = []) := by
  constructor
  · intro h; rw [GetQueue, h]
  · intro s h; rw [GetQueue, h]

theorem getQueue_silent_empty_witness :
    GetQueue ([] : Store) "ReqQueue" = [] ∧
      GetQueue [("ReqQueue", RVal.str "not json")] "ReqQueue" = [] :=
  ⟨(getQueue_silent_empty [] "ReqQueue").1 rfl,
   (getQueue_silent_empty [("ReqQueue", RVal.str "not json")] "ReqQueue").2
     "not json" rfl⟩

end DeadLetterQueue
